import Mathlib

/-!
Shallow embedding of `methods.py` from the hyperbbob repository:
the `MinimizeMethod` adapter and the `SteppingData` progress log.

Real numbers (Python floats) are modelled as exact rationals `Rat`.
The log file is modelled as a list of structured lines (`LogLine`),
each understood as one newline-terminated text line; numeric fields
keep their exact values rather than their `%+10.9e` rendering.
-/

namespace HyperBBOB

/-- The last-evaluation data exposed by the benchmark function
(`self.f.lasteval` in the source): evaluation counter `num` and the
best fitness so far `bestf`. -/
structure LastEval where
  num : Nat
  bestf : Rat
deriving Repr, DecidableEq

/-- The benchmark function object `fi.f` (external `fgeneric` collaborator):
dimension-readiness flags, backing data-file path, required precision,
known optimum `fopt` and the last-evaluation record. -/
structure BBFunc where
  is_setdim : Bool
  cur_dim : Nat
  is_ready : Bool
  datafile : String
  precision : Rat
  fopt : Rat
  lasteval : LastEval
deriving Repr, DecidableEq

/-- The benchmark function instance `fi`: its dimension and the backing
function object. -/
structure FInstance where
  dim : Nat
  f : BBFunc
deriving Repr, DecidableEq

/-- Python `str.lower` restricted to ASCII case folding, which covers the
method names the source compares against. -/
def pyLower (s : String) : String :=
  String.mk (s.data.map Char.toLower)

/-- A point is an ordered sequence of reals (modelled as rationals). -/
def Point := List Rat

/-- An objective function maps a point to a fitness value. -/
def Objective := Point → Rat

/-- Model of `np.min` on a one-dimensional array: the minimum of the list.
`np.min` raises on an empty array, so the `[]` case is unreachable in the
source (`fi.dim ≥ 1`); it is given a junk value here. -/
def npMin : List Rat → Rat
  | [] => 0
  | a :: as => as.foldl min a

/-- One entry of the `constraints` tuple: a dict with a `type` string and
a constraint function. -/
structure Constraint where
  ctype : String
  cfun : List Rat → Rat

/-- First constraint built in `MinimizeMethod.__init__`:
`{ "type": "ineq", "fun": lambda x: np.min(x+5) }`. -/
def constraint1 : Constraint :=
  { ctype := "ineq", cfun := fun x => npMin (x.map (fun xi => xi + 5)) }

/-- Second constraint built in `MinimizeMethod.__init__`:
`{ "type": "ineq", "fun": lambda x: np.min(-(x-5)) }`. -/
def constraint2 : Constraint :=
  { ctype := "ineq", cfun := fun x => npMin (x.map (fun xi => -(xi - 5))) }

/-- The `options` dict of the minimizer configuration:
`dict(rhoend = fi.f.precision)`. -/
structure MinOptions where
  rhoend : Rat
deriving Repr, DecidableEq

/-- The `minimizer_kwargs` dict as built by `MinimizeMethod.__init__`.
The `method` key is absent right after the dict literal is built and is
added by `_setup_method`, hence `Option String`. -/
structure MinimizerKwargs where
  bounds : List (Rat × Rat)
  constraints : Constraint × Constraint
  options : MinOptions
  method : Option String

/-- The dict `dict(callback = inner_cb, **self.minimizer_kwargs)` passed to
the outer loop in `MinimizeMethod.__call__`.  `κ` is the (opaque to this
component) type of callbacks. -/
structure MinimizerKwargsCb (κ : Type) where
  callback : Option κ
  bounds : List (Rat × Rat)
  constraints : Constraint × Constraint
  options : MinOptions
  method : Option String

/-- The calling shape of the outer search procedure
(`scipy.optimize.basinhopping` by default, an external collaborator):
objective, start point, outer callback, minimizer configuration.
`ρ` is the type of its result structure. -/
def OuterLoop (κ ρ : Type) : Type :=
  Objective → Point → Option κ → MinimizerKwargsCb κ → ρ

/-- The `MinimizeMethod` object after successful construction. -/
structure MinimizeMethod (κ ρ : Type) where
  name : String
  fi : FInstance
  outer_loop : OuterLoop κ ρ
  minimizer_kwargs : MinimizerKwargs

/-- `MinimizeMethod._setup_method`: reject `anneal`/`cobyla`
case-insensitively with a RuntimeError, otherwise store the name verbatim
as `minimizer_kwargs['method']`. -/
def MinimizeMethod.setup_method (m : MinimizeMethod κ ρ) (name : String) :
    Except String (MinimizeMethod κ ρ) :=
  if pyLower name ∈ ["anneal", "cobyla"] then
    Except.error ("MinimizationMethod does not support method " ++ name
      ++ " (does not provide callback functionality).")
  else
    Except.ok { m with minimizer_kwargs := { m.minimizer_kwargs with method := some name } }

/-- `MinimizeMethod.__init__(name, fi)`: store name and instance, set the
outer loop to the (externally supplied) basinhopping routine, build
`minimizer_kwargs` (bounds `[(-6., +6.)] * dim`, the two box constraints,
options with `rhoend = fi.f.precision`), then run `_setup_method(name)`,
whose RuntimeError aborts the construction. -/
def MinimizeMethod.init (basinhopping : OuterLoop κ ρ) (name : String)
    (fi : FInstance) : Except String (MinimizeMethod κ ρ) :=
  let m : MinimizeMethod κ ρ :=
    { name := name
      fi := fi
      outer_loop := basinhopping
      minimizer_kwargs :=
        { bounds := (List.range fi.dim).map (fun _ => ((-6 : Rat), (6 : Rat)))
          constraints := (constraint1, constraint2)
          options := { rhoend := fi.f.precision }
          method := none } }
  m.setup_method name

/-- `MinimizeMethod.__call__(fun, x0, inner_cb, outer_cb)`: delegate to
`self.outer_loop(fun, x0, callback = outer_cb,
minimizer_kwargs = dict(callback = inner_cb, **self.minimizer_kwargs))`
and return its result. -/
def MinimizeMethod.call (m : MinimizeMethod κ ρ) (f : Objective) (x0 : Point)
    (inner_cb : Option κ) (outer_cb : Option κ) : ρ :=
  m.outer_loop f x0 outer_cb
    { callback := inner_cb
      bounds := m.minimizer_kwargs.bounds
      constraints := m.minimizer_kwargs.constraints
      options := m.minimizer_kwargs.options
      method := m.minimizer_kwargs.method }

/-- One record line of the `.mdat` file, in the field order of the format
string `'%d %d %d %s %d %+10.9e'` plus the optional best-offset column. -/
structure RecordLine where
  num : Nat
  portfolioIter : Nat
  index : Int
  mname : String
  invocations : Nat
  fitness : Rat
  bestOffset : Option Rat
deriving Repr, DecidableEq

/-- One newline-terminated line of the `.mdat` log file: the `%`-prefixed
header comment or a record line. -/
inductive LogLine where
  | header
  | rcd (line : RecordLine)
deriving Repr, DecidableEq

/-- The `SteppingData` object state: the benchmark function reference, the
outer-iteration counter, the differential-encoding cache `last_best`
(`None` sentinel modelled as `none`), and the contents of the open
`.mdat` file. -/
structure SteppingData where
  f : BBFunc
  total_iters : Nat
  last_best : Option Rat
  log : List LogLine

/-- Modelled from the spec: `fgeneric`'s `_setdim`, `_is_ready` and
`_readytostart` are external to this repository; per the spec the
constructor "lazily ensures that descriptor is initialized for the
requested dimensionality", modelled as setting the readiness flags and
dimension. -/
def BBFunc.ensureReady (f : BBFunc) (dim : Nat) : BBFunc :=
  let f1 := if !f.is_setdim || f.cur_dim != dim then
    { f with is_setdim := true, cur_dim := dim } else f
  let f2 := if !f1.is_ready then { f1 with is_ready := true } else f1
  f2

/-- `SteppingData.__init__(fi)`: ready the function instance, open the
`.mdat` file (path = datafile with extension replaced) in append mode —
`pre` is the pre-existing file content — and write the header line once. -/
def SteppingData.init (fi : FInstance) (pre : List LogLine) : SteppingData :=
  { f := fi.f.ensureReady fi.dim
    total_iters := 0
    last_best := none
    log := pre ++ [LogLine.header] }

/-- `SteppingData.end_iter`: `self.total_iters += 1`. -/
def SteppingData.end_iter (s : SteppingData) : SteppingData :=
  { s with total_iters := s.total_iters + 1 }

/-- `SteppingData.record(i, name, iters, fitness, point)`: compute
`best = e.bestf - self.f.fopt`, build the record line, append the
best-offset column and update `last_best` exactly when
`self.last_best is None or best != self.last_best`, and write the line
(`point` is only consumed by code that is commented out). -/
def SteppingData.record (s : SteppingData) (i : Int) (name : String)
    (iters : Nat) (fitness : Rat) (point : List Rat) : SteppingData :=
  let e := s.f.lasteval
  let best := e.bestf - s.f.fopt
  let wb : Bool :=
    match s.last_best with
    | none => true
    | some lb => decide (best ≠ lb)
  let line : RecordLine :=
    { num := e.num
      portfolioIter := s.total_iters
      index := i
      mname := name
      invocations := iters
      fitness := fitness
      bestOffset := if wb then some best else none }
  { s with
    last_best := if wb then some best else s.last_best
    log := s.log ++ [LogLine.rcd line] }

/-- An operation on a live `SteppingData`: one of its two methods, or an
update of the shared benchmark function object by the surrounding driver
(external evaluations mutate `fi.f` between calls). -/
inductive LogOp where
  | endIter
  | record (i : Int) (name : String) (iters : Nat) (fitness : Rat) (point : List Rat)
  | fchange (g : BBFunc → BBFunc)

/-- Whether an operation is a `record` call. -/
def LogOp.isRecord : LogOp → Bool
  | .record _ _ _ _ _ => true
  | _ => false

/-- Apply one operation to the state. -/
def SteppingData.applyOp (s : SteppingData) : LogOp → SteppingData
  | .endIter => s.end_iter
  | .record i n it fit p => s.record i n it fit p
  | .fchange g => { s with f := g s.f }

/-- Run a sequence of operations. -/
def SteppingData.runOps (s : SteppingData) : List LogOp → SteppingData
  | [] => s
  | op :: ops => (s.applyOp op).runOps ops

/-- Whether a log line is the header line. -/
def LogLine.isHeader : LogLine → Bool
  | .header => true
  | .rcd _ => false

/-- Number of header lines in a file content. -/
def headerCount (ls : List LogLine) : Nat :=
  (ls.filter LogLine.isHeader).length

/-! Concrete test fixtures used by witnesses. -/

/-- A concrete benchmark function object for concrete evaluations. -/
def testF : BBFunc :=
  { is_setdim := true
    cur_dim := 2
    is_ready := true
    datafile := "bbob_f001.dat"
    precision := 1 / 100000000
    fopt := 0
    lasteval := { num := 0, bestf := 0 } }

/-- A concrete two-dimensional function instance. -/
def testFi : FInstance := { dim := 2, f := testF }

/-- A concrete outer loop standing in for `scipy.optimize.basinhopping`. -/
def testLoop : OuterLoop Unit Unit := fun _ _ _ _ => ()

/-! Helper lemmas. -/

/-- Characterization of successful construction: `init` returns `ok m` iff
the lowered name avoids the disallowed set and `m` is exactly the object
built by the constructor with `method` set to the verbatim name. -/
theorem init_ok_iff (κ ρ : Type) (bh : OuterLoop κ ρ) (name : String)
    (fi : FInstance) (m : MinimizeMethod κ ρ) :
    MinimizeMethod.init bh name fi = Except.ok m ↔
      (pyLower name ∉ ["anneal", "cobyla"] ∧
        m = { name := name
              fi := fi
              outer_loop := bh
              minimizer_kwargs :=
                { bounds := (List.range fi.dim).map (fun _ => ((-6 : Rat), (6 : Rat)))
                  constraints := (constraint1, constraint2)
                  options := { rhoend := fi.f.precision }
                  method := some name } }) := by
  by_cases hc : pyLower name ∈ ["anneal", "cobyla"] <;>
    simp [MinimizeMethod.init, MinimizeMethod.setup_method, hc, eq_comm]

/-- Nonnegativity of a fold by `min` over rationals. -/
theorem foldl_min_nonneg_iff (as : List Rat) (a : Rat) :
    0 ≤ as.foldl min a ↔ 0 ≤ a ∧ ∀ b ∈ as, 0 ≤ b := by
  induction as generalizing a with
  | nil => simp
  | cons b bs ih =>
    simp only [List.foldl_cons, ih, le_min_iff, List.mem_cons]
    constructor
    · rintro ⟨⟨ha, hb⟩, hrest⟩
      exact ⟨ha, fun c hc => hc.elim (fun h => h ▸ hb) (hrest c)⟩
    · rintro ⟨ha, hall⟩
      exact ⟨⟨ha, hall b (Or.inl rfl)⟩, fun c hc => hall c (Or.inr hc)⟩

/-- `np.min` of a nonempty array is nonnegative iff every entry is. -/
theorem npMin_nonneg_iff (x : List Rat) (hx : x ≠ []) :
    0 ≤ npMin x ↔ ∀ a ∈ x, 0 ≤ a := by
  cases x with
  | nil => exact absurd rfl hx
  | cons a as =>
    simp only [npMin, foldl_min_nonneg_iff, List.mem_cons]
    constructor
    · rintro ⟨ha, hall⟩
      exact fun c hc => hc.elim (fun h => h ▸ ha) (hall c)
    · intro hall
      exact ⟨hall a (Or.inl rfl), fun c hc => hall c (Or.inr hc)⟩

/-- One operation leaves `last_best` unset iff it was unset before and the
operation is not a `record` call. -/
theorem applyOp_last_best_none (s : SteppingData) (op : LogOp) :
    (s.applyOp op).last_best = none ↔
      (s.last_best = none ∧ op.isRecord = false) := by
  cases op with
  | endIter => simp [SteppingData.applyOp, SteppingData.end_iter, LogOp.isRecord]
  | record i n it fit p =>
    cases h : s.last_best with
    | none => simp [SteppingData.applyOp, SteppingData.record, LogOp.isRecord, h]
    | some lb =>
      by_cases hb : s.f.lasteval.bestf - s.f.fopt = lb <;>
        simp [SteppingData.applyOp, SteppingData.record, LogOp.isRecord, h, hb]
  | fchange g => simp [SteppingData.applyOp, LogOp.isRecord]

/-- A run of operations leaves `last_best` unset iff it started unset and
contained no `record` call. -/
theorem runOps_last_best_none (s : SteppingData) (ops : List LogOp) :
    (s.runOps ops).last_best = none ↔
      (s.last_best = none ∧ ∀ op ∈ ops, op.isRecord = false) := by
  induction ops generalizing s with
  | nil => simp [SteppingData.runOps]
  | cons op ops ih =>
    simp only [SteppingData.runOps, ih, applyOp_last_best_none, List.mem_cons]
    constructor
    · rintro ⟨⟨h1, h2⟩, h3⟩
      exact ⟨h1, fun o ho => ho.elim (fun h => h ▸ h2) (h3 o)⟩
    · rintro ⟨h1, hall⟩
      exact ⟨⟨h1, hall op (Or.inl rfl)⟩, fun o ho => hall o (Or.inr ho)⟩

/-- No operation changes the number of header lines in the file. -/
theorem applyOp_headerCount (s : SteppingData) (op : LogOp) :
    headerCount (s.applyOp op).log = headerCount s.log := by
  cases op with
  | endIter => rfl
  | record i n it fit p =>
    simp [SteppingData.applyOp, SteppingData.record, headerCount,
      List.filter_append, LogLine.isHeader]
  | fchange g => rfl

/-- No run of operations changes the number of header lines in the file. -/
theorem runOps_headerCount (s : SteppingData) (ops : List LogOp) :
    headerCount (s.runOps ops).log = headerCount s.log := by
  induction ops generalizing s with
  | nil => rfl
  | cons op ops ih =>
    simp [SteppingData.runOps, ih, applyOp_headerCount]

/-! Claim theorems. -/

/-- C1: each `record` call appends one line whose best-offset column is
present iff the computed offset `bestf - fopt` differs from the stored
`last_best` of the immediately preceding call (unset sentinel on the first
call); whenever present it carries the new offset and the stored
`last_best` is updated to it, otherwise `last_best` is unchanged.
Moreover `last_best` is the unset sentinel exactly on runs that contain no
`record` call after construction. -/
theorem record_bestOffset_spec :
    (∀ (s : SteppingData) (i : Int) (n : String) (it : Nat) (fit : Rat)
        (p : List Rat),
      ∃ r : RecordLine,
        (s.record i n it fit p).log = s.log ++ [LogLine.rcd r] ∧
        (r.bestOffset ≠ none ↔
          (s.last_best = none ∨
            s.last_best ≠ some (s.f.lasteval.bestf - s.f.fopt))) ∧
        (r.bestOffset ≠ none →
          r.bestOffset = some (s.f.lasteval.bestf - s.f.fopt) ∧
          (s.record i n it fit p).last_best =
            some (s.f.lasteval.bestf - s.f.fopt)) ∧
        (r.bestOffset = none →
          (s.record i n it fit p).last_best = s.last_best)) ∧
    (∀ (fi : FInstance) (pre : List LogLine) (ops : List LogOp),
      ((SteppingData.init fi pre).runOps ops).last_best = none ↔
        ∀ op ∈ ops, op.isRecord = false) := by
  constructor
  · intro s i n it fit p
    cases h : s.last_best with
    | none =>
      refine ⟨_, rfl, ?_, ?_, ?_⟩ <;>
        simp [SteppingData.record, h]
    | some lb =>
      by_cases hb : s.f.lasteval.bestf - s.f.fopt = lb
      · refine ⟨_, rfl, ?_, ?_, ?_⟩ <;>
          simp [SteppingData.record, h, hb]
      · refine ⟨_, rfl, ?_, ?_, ?_⟩ <;>
          simp [SteppingData.record, h, hb, Ne.symm hb]
  · intro fi pre ops
    rw [runOps_last_best_none]
    simp [SteppingData.init]

/-- C2 counterexample: the claim says each constraint expression is
nonnegative exactly when every coordinate lies in the bounds box
`[-6, +6]`, but at the point `[6]` (inside that box) the second
constraint `np.min(-(x-5))` evaluates to `-1 < 0`. -/
theorem constraint_box_cex :
    ¬ (0 ≤ constraint2.cfun [(6 : Rat)] ↔
        ∀ xi ∈ [(6 : Rat)], -6 ≤ xi ∧ xi ≤ 6) := by
  intro h
  have h2 : (0 : Rat) ≤ constraint2.cfun [(6 : Rat)] := by
    apply h.mpr
    intro xi hxi
    simp only [List.mem_singleton] at hxi
    subst hxi
    norm_num
  simp only [constraint2, List.map_cons, List.map_nil, npMin,
    List.foldl_nil] at h2
  norm_num at h2

/-- C2 (amended): the two constraint expressions enforce the box
`[-5, +5]`, not the bounds box `[-6, +6]`: for every nonempty point, the
first is nonnegative iff every coordinate is at least `-5`, and the
second is nonnegative iff every coordinate is at most `+5`. -/
theorem constraint_box_amended (x : List Rat) (hx : x ≠ []) :
    (0 ≤ constraint1.cfun x ↔ ∀ xi ∈ x, -5 ≤ xi) ∧
    (0 ≤ constraint2.cfun x ↔ ∀ xi ∈ x, xi ≤ 5) := by
  have hmap1 : x.map (fun xi => xi + 5) ≠ [] := by simpa using hx
  have hmap2 : x.map (fun xi => -(xi - 5)) ≠ [] := by simpa using hx
  constructor
  · show 0 ≤ npMin (x.map (fun xi => xi + 5)) ↔ _
    rw [npMin_nonneg_iff _ hmap1]
    constructor
    · intro h xi hxi
      have := h (xi + 5) (List.mem_map_of_mem _ hxi)
      linarith
    · intro h a ha
      obtain ⟨xi, hxi, rfl⟩ := List.mem_map.mp ha
      have := h xi hxi
      linarith
  · show 0 ≤ npMin (x.map (fun xi => -(xi - 5))) ↔ _
    rw [npMin_nonneg_iff _ hmap2]
    constructor
    · intro h xi hxi
      have := h (-(xi - 5)) (List.mem_map_of_mem _ hxi)
      linarith
    · intro h a ha
      obtain ⟨xi, hxi, rfl⟩ := List.mem_map.mp ha
      have := h xi hxi
      linarith

/-- C2 witness: the amended statement at the concrete nonempty point `[1]`. -/
theorem constraint_box_amended_witness :
    ([(1 : Rat)] ≠ []) ∧
    ((0 ≤ constraint1.cfun [(1 : Rat)] ↔ ∀ xi ∈ [(1 : Rat)], -5 ≤ xi) ∧
     (0 ≤ constraint2.cfun [(1 : Rat)] ↔ ∀ xi ∈ [(1 : Rat)], xi ≤ 5)) :=
  ⟨by simp, constraint_box_amended [(1 : Rat)] (by simp)⟩

/-- C3: for a name whose lowering is one of the two disallowed
identifiers, construction returns the unsupported-method error and never
returns a configured adapter object. -/
theorem init_disallowed_error (κ ρ : Type) (bh : OuterLoop κ ρ)
    (name : String) (fi : FInstance)
    (h : pyLower name = "anneal" ∨ pyLower name = "cobyla") :
    MinimizeMethod.init bh name fi =
      Except.error ("MinimizationMethod does not support method " ++ name
        ++ " (does not provide callback functionality).") ∧
    ∀ m : MinimizeMethod κ ρ, MinimizeMethod.init bh name fi ≠ Except.ok m := by
  have hmem : pyLower name ∈ ["anneal", "cobyla"] := by
    rcases h with h | h <;> simp [h]
  constructor
  · simp [MinimizeMethod.init, MinimizeMethod.setup_method, hmem]
  · intro m hcon
    simp [MinimizeMethod.init, MinimizeMethod.setup_method, hmem] at hcon

/-- C3 witness: the disallowed-name theorem at the concrete name
`"COBYLA"` (exercising case-insensitivity) and a concrete instance. -/
theorem init_disallowed_error_witness :
    (pyLower "COBYLA" = "anneal" ∨ pyLower "COBYLA" = "cobyla") ∧
    (MinimizeMethod.init testLoop "COBYLA" testFi =
      Except.error ("MinimizationMethod does not support method COBYLA"
        ++ " (does not provide callback functionality).") ∧
    ∀ m : MinimizeMethod Unit Unit,
      MinimizeMethod.init testLoop "COBYLA" testFi ≠ Except.ok m) :=
  ⟨Or.inr (by decide),
    init_disallowed_error Unit Unit testLoop "COBYLA" testFi (Or.inr (by decide))⟩

/-- C4: whenever construction succeeds, the bounds sequence has length
exactly the instance's dimension and every element is the pair
`(-6, +6)`. -/
theorem init_bounds_spec (κ ρ : Type) (bh : OuterLoop κ ρ) (name : String)
    (fi : FInstance) (m : MinimizeMethod κ ρ)
    (h : MinimizeMethod.init bh name fi = Except.ok m) :
    m.minimizer_kwargs.bounds.length = fi.dim ∧
      ∀ p ∈ m.minimizer_kwargs.bounds, p = ((-6 : Rat), (6 : Rat)) := by
  obtain ⟨-, rfl⟩ := (init_ok_iff κ ρ bh name fi m).mp h
  constructor
  · simp
  · intro p hp
    simp only [List.mem_map] at hp
    obtain ⟨d, -, rfl⟩ := hp
    rfl

/-- C4 witness: the bounds property at a successful concrete
construction for the two-dimensional instance and name `"BFGS"`. -/
theorem init_bounds_spec_witness :
    (MinimizeMethod.init testLoop "BFGS" testFi = Except.ok
      { name := "BFGS"
        fi := testFi
        outer_loop := testLoop
        minimizer_kwargs :=
          { bounds := (List.range testFi.dim).map (fun _ => ((-6 : Rat), (6 : Rat)))
            constraints := (constraint1, constraint2)
            options := { rhoend := testFi.f.precision }
            method := some "BFGS" } }) ∧
    ((MinimizeMethod.mk "BFGS" testFi testLoop
          { bounds := (List.range testFi.dim).map (fun _ => ((-6 : Rat), (6 : Rat)))
            constraints := (constraint1, constraint2)
            options := { rhoend := testFi.f.precision }
            method := some "BFGS" }).minimizer_kwargs.bounds.length = testFi.dim ∧
      ∀ p ∈ (MinimizeMethod.mk "BFGS" testFi testLoop
          { bounds := (List.range testFi.dim).map (fun _ => ((-6 : Rat), (6 : Rat)))
            constraints := (constraint1, constraint2)
            options := { rhoend := testFi.f.precision }
            method := some "BFGS" }).minimizer_kwargs.bounds,
        p = ((-6 : Rat), (6 : Rat))) :=
  ⟨rfl, init_bounds_spec Unit Unit testLoop "BFGS" testFi _ rfl⟩

/-- C5: for a name outside the disallowed set (case-insensitively),
construction succeeds and the stored `method` entry of the minimizer
configuration is the provided name verbatim, case preserved. -/
theorem init_allowed_stores_name (κ ρ : Type) (bh : OuterLoop κ ρ)
    (name : String) (fi : FInstance)
    (h : pyLower name ∉ ["anneal", "cobyla"]) :
    ∃ m : MinimizeMethod κ ρ, MinimizeMethod.init bh name fi = Except.ok m ∧
      m.minimizer_kwargs.method = some name := by
  refine ⟨_, (init_ok_iff κ ρ bh name fi _).mpr ⟨h, rfl⟩, rfl⟩

/-- C5 witness: successful construction storing the verbatim name at the
concrete mixed-case name `"BFGS"`. -/
theorem init_allowed_stores_name_witness :
    (pyLower "BFGS" ∉ ["anneal", "cobyla"]) ∧
    ∃ m : MinimizeMethod Unit Unit,
      MinimizeMethod.init testLoop "BFGS" testFi = Except.ok m ∧
        m.minimizer_kwargs.method = some "BFGS" :=
  ⟨by decide, init_allowed_stores_name Unit Unit testLoop "BFGS" testFi (by decide)⟩

/-- C6: the counter starts at 0 at construction, each `end_iter` call
increments it by exactly 1, the current counter value is the second field
of the line written by each `record` call, and neither `record` nor an
external function update changes the counter. -/
theorem end_iter_counter_spec :
    (∀ (fi : FInstance) (pre : List LogLine),
      (SteppingData.init fi pre).total_iters = 0) ∧
    (∀ s : SteppingData, s.end_iter.total_iters = s.total_iters + 1) ∧
    (∀ (s : SteppingData) (i : Int) (n : String) (it : Nat) (fit : Rat)
        (p : List Rat),
      ∃ r : RecordLine,
        (s.record i n it fit p).log = s.log ++ [LogLine.rcd r] ∧
        r.portfolioIter = s.total_iters) ∧
    (∀ (s : SteppingData) (i : Int) (n : String) (it : Nat) (fit : Rat)
        (p : List Rat),
      (s.record i n it fit p).total_iters = s.total_iters) ∧
    (∀ (s : SteppingData) (g : BBFunc → BBFunc),
      (s.applyOp (LogOp.fchange g)).total_iters = s.total_iters) :=
  ⟨fun _ _ => rfl, fun _ => rfl,
    fun s i n it fit p => ⟨_, rfl, rfl⟩,
    fun _ _ _ _ _ _ => rfl, fun _ _ => rfl⟩

/-- C7: every `record` call appends exactly one line to the file, and
after construction on any pre-existing append-mode content followed by
any sequence of operations, the file holds exactly one more header line
than the pre-existing content. -/
theorem record_one_line_header_once :
    (∀ (s : SteppingData) (i : Int) (n : String) (it : Nat) (fit : Rat)
        (p : List Rat),
      ∃ r : RecordLine,
        (s.record i n it fit p).log = s.log ++ [LogLine.rcd r]) ∧
    (∀ (fi : FInstance) (pre : List LogLine) (ops : List LogOp),
      headerCount (((SteppingData.init fi pre).runOps ops).log) =
        headerCount pre + 1) := by
  constructor
  · intro s i n it fit p
    exact ⟨_, rfl⟩
  · intro fi pre ops
    rw [runOps_headerCount]
    simp [SteppingData.init, headerCount, List.filter_append, LogLine.isHeader]

/-- C8: invoking the adapter calls the stored outer loop with the
objective, the start point and the outer callback, passing a minimizer
configuration that carries the inner callback together with the stored
method selector, bounds, constraints and options, and returns the outer
loop's result unchanged. -/
theorem call_delegates (κ ρ : Type) (m : MinimizeMethod κ ρ) (f : Objective)
    (x0 : Point) (icb ocb : Option κ) :
    ∃ kw : MinimizerKwargsCb κ,
      m.call f x0 icb ocb = m.outer_loop f x0 ocb kw ∧
      kw.callback = icb ∧
      kw.method = m.minimizer_kwargs.method ∧
      kw.bounds = m.minimizer_kwargs.bounds ∧
      kw.constraints = m.minimizer_kwargs.constraints ∧
      kw.options = m.minimizer_kwargs.options :=
  ⟨_, rfl, rfl, rfl, rfl, rfl, rfl⟩

/-- C9: two `record` calls differing only in the `point` argument produce
identical successor states, log included: the point has no influence on
the observable behavior of `record`. -/
theorem record_ignores_point (s : SteppingData) (i : Int) (n : String)
    (it : Nat) (fit : Rat) (p1 p2 : List Rat) :
    s.record i n it fit p1 = s.record i n it fit p2 :=
  rfl

/-- C10: `end_iter` changes only the counter, preserving the function
reference, the `last_best` cache and the file content; `record` preserves
the counter and the function reference. -/
theorem frame_spec (s : SteppingData) (i : Int) (n : String) (it : Nat)
    (fit : Rat) (p : List Rat) :
    s.end_iter.f = s.f ∧
    s.end_iter.last_best = s.last_best ∧
    s.end_iter.log = s.log ∧
    s.end_iter.total_iters = s.total_iters + 1 ∧
    (s.record i n it fit p).total_iters = s.total_iters ∧
    (s.record i n it fit p).f = s.f :=
  ⟨rfl, rfl, rfl, rfl, rfl, rfl⟩

end HyperBBOB
